import Mathlib

/-!
Verification of the TEI-to-LCP extraction core of `convert.py`
(`ssrq_lcp_conversion`).

The development shallowly embeds the document-extraction pipeline:

* `Elem` / `ElemList` — the parsed markup tree (tag with namespace already
  stripped, attribute map, direct text, ordered children, tail text), mirroring
  the `xml.etree.ElementTree` interface that `convert.py` consumes.
* `Ctx` — the mutable `context` dictionary of `extract_document_data`
  (text buffer, annotation list, pages, current page, `global_offset`,
  `last_char_is_whitespace`).  The buffer stores each character together with a
  ghost boolean that is `true` exactly when the character was appended by the
  line-break (`lb`) handler; the produced text is the first projection.
* `add_text_to_context`, `process_element`, `get_element_text`,
  `remove_extra_spaces`, `extract_document_data`, `process_corpus` — direct
  translations of the functions of the same names in `convert.py`.
* `check_cond` / `reconcile_step` / `reconcile_anns` — the annotation
  keep/drop decision of the reconciliation loop in `convert_to_lcp`
  (convert.py lines 612–725), including the rebinding of the loop variable
  `text` by kept placeName/persName annotations (lines 642 and 699); CSV row
  writing is out of scope.

Python strings are modelled as `List Char`; Python `None` as `Option.none`.
-/

/-- Whitespace test used uniformly for Python's `str.isspace`, `str.strip` and
the regex class `\s` (the ASCII whitespace characters, the only ones relevant
here). -/
def isSpace (c : Char) : Bool :=
  c = ' ' || c = '\t' || c = '\n' || c = '\r' || c = '\x0b' || c = '\x0c'

/-- Python `re.sub(r"\s+", " ", text)`: every maximal run of whitespace
characters becomes a single space.  The boolean argument records whether the
previously scanned character belonged to a whitespace run. -/
def collapse_ws_aux : Bool → List Char → List Char
  | _, [] => []
  | prevWs, c :: rest =>
    if isSpace c then
      if prevWs then collapse_ws_aux true rest
      else ' ' :: collapse_ws_aux true rest
    else c :: collapse_ws_aux false rest

/-- Entry point of the `\s+` collapse (no run in progress initially). -/
def collapse_ws (l : List Char) : List Char := collapse_ws_aux false l

/-- Python `str.strip()`: drop leading and trailing whitespace. -/
def strip_chars (l : List Char) : List Char :=
  ((l.dropWhile isSpace).reverse.dropWhile isSpace).reverse

/-- Scanner state for `re.sub(r"\s{2,}", " ", s)`: either no whitespace is
pending, exactly one whitespace character `w` is pending (kept verbatim if the
run stops at length one), or a run of length ≥ 2 has already been replaced by a
single space and its remaining characters are being swallowed. -/
inductive RunState where
  | clear
  | pending (w : Char)
  | collapsed

/-- Python `re.sub(r"\s{2,}", " ", s)`: a run of two or more whitespace
characters becomes one space; a lone whitespace character stays unchanged. -/
def collapse_runs_aux : RunState → List Char → List Char
  | .clear, [] => []
  | .pending w, [] => [w]
  | .collapsed, [] => []
  | st, c :: rest =>
    if isSpace c then
      match st with
      | .clear => collapse_runs_aux (.pending c) rest
      | .pending _ => ' ' :: collapse_runs_aux .collapsed rest
      | .collapsed => collapse_runs_aux .collapsed rest
    else
      match st with
      | .clear => c :: collapse_runs_aux .clear rest
      | .pending w => w :: c :: collapse_runs_aux .clear rest
      | .collapsed => c :: collapse_runs_aux .clear rest

/-- `remove_extra_spaces` (convert.py 367–369):
`re.sub(r"\s{2,}", " ", text.strip())`. -/
def remove_extra_spaces (l : List Char) : List Char :=
  collapse_runs_aux .clear (strip_chars l)

/-- One span-annotation record appended by the traversal (the Python dicts
built in `process_element`; absent keys use the defaults). -/
structure Ann where
  type : String
  attributes : List (String × String) := []
  text : Option (List Char)
  alternative_text : Option (List Char)
  start_offset : Nat
  end_offset : Nat
  page : Option String
  /-- `details = {"deleted": del_text, "added": add_text}` of substitution
  records, absent elsewhere. -/
  details : Option (Option (List Char) × Option (List Char)) := none
deriving DecidableEq, Repr

/-- The `context` dictionary initialised in `extract_document_data`
(convert.py 99–107).  The text buffer carries a ghost flag per character:
`true` iff the character was appended by the `lb` handler. -/
structure Ctx where
  text_content : List (Char × Bool)
  annotations : List Ann
  pages : List (String × Nat)
  current_page : Option String
  global_offset : Nat
  last_char_is_whitespace : Bool
deriving DecidableEq, Repr

/-- The three-line append idiom used at every place `convert.py` pushes one
character (`text_content.append`, `global_offset += 1`, set the whitespace
flag).  `forced` is the ghost line-break marker. -/
def push_char (c : Char) (forced : Bool) (ws : Bool) (ctx : Ctx) : Ctx :=
  { ctx with
      text_content := ctx.text_content ++ [(c, forced)],
      global_offset := ctx.global_offset + 1,
      last_char_is_whitespace := ws }

/-- The character loop of `add_text_to_context` (convert.py 332–342):
whitespace is appended only when the previous character was not whitespace. -/
def add_chars : List Char → Ctx → Ctx
  | [], ctx => ctx
  | c :: rest, ctx =>
    if isSpace c then
      if ctx.last_char_is_whitespace then add_chars rest ctx
      else add_chars rest (push_char c false true ctx)
    else add_chars rest (push_char c false false ctx)

/-- `add_text_to_context` (convert.py 323–342): return unchanged on empty
text, pre-collapse every whitespace run to a single space, then append
character by character with whitespace suppression. -/
def add_text_to_context (text : List Char) (ctx : Ctx) : Ctx :=
  if text.isEmpty then ctx else add_chars (collapse_ws text) ctx

mutual
/-- A parsed markup element as `convert.py` sees it through ElementTree:
namespace-stripped tag, attribute map, optional direct text, children, and the
element's own tail text. -/
inductive Elem where
  | mk (tag : String) (attrs : List (String × String)) (text : Option (List Char))
       (children : ElemList) (tail : Option (List Char))

/-- Ordered child list of an element. -/
inductive ElemList where
  | nil
  | cons (head : Elem) (rest : ElemList)
end

/-- Tag of an element. -/
def Elem.tag : Elem → String
  | .mk t _ _ _ _ => t

/-- Attribute map of an element. -/
def Elem.attrs : Elem → List (String × String)
  | .mk _ a _ _ _ => a

/-- Direct text of an element (`element.text`). -/
def Elem.text : Elem → Option (List Char)
  | .mk _ _ t _ _ => t

/-- Children of an element. -/
def Elem.children : Elem → ElemList
  | .mk _ _ _ c _ => c

/-- Tail text of an element (`element.tail`). -/
def Elem.tail : Elem → Option (List Char)
  | .mk _ _ _ _ t => t

mutual
/-- `element.find(".//tei:" + t)`: first strict descendant with tag `t`, in
document (pre)order, or `none`. -/
def find_desc (t : String) : Elem → Option Elem
  | .mk _ _ _ ch _ => find_in_list t ch

/-- Search a child list for the first element tagged `t`, descending before
moving to the next sibling. -/
def find_in_list (t : String) : ElemList → Option Elem
  | .nil => none
  | .cons e rest =>
    match (if e.tag = t then some e else find_desc t e) with
    | some r => some r
    | none => find_in_list t rest
end

mutual
/-- `get_element_text` (convert.py 345–364): direct text, then recursively
each child's text (children tagged `del` skipped) and each child's tail, the
concatenation passed through `remove_extra_spaces`. -/
def get_element_text : Elem → List Char
  | .mk _ _ txt ch _ => remove_extra_spaces (txt.getD [] ++ elem_list_text ch)

/-- Text parts contributed by a child list in `get_element_text`'s loop. -/
def elem_list_text : ElemList → List Char
  | .nil => []
  | .cons e rest =>
    (if e.tag = "del" then [] else get_element_text e) ++ e.tail.getD []
      ++ elem_list_text rest
end

/-- The structural tags excluded from generic span records
(convert.py 288–302). -/
def structural_tags : List String :=
  ["div", "p", "body", "text", "group", "lb", "pb", "choice", "subst",
   "del", "add", "abbr", "expan"]

/-- `element.get(key)`: first value bound to `key` in the attribute map. -/
def lookup_attr (k : String) : List (String × String) → Option String
  | [] => none
  | (k', v) :: rest => if k' = k then some v else lookup_attr k rest

/-- The generic-span check at the end of `process_element`
(convert.py 287–318): elements that are not structural and carry at least one
attribute get a record of their canonical text over the traversed span. -/
def maybe_generic_ann (e : Elem) (start_offset : Nat) (ctx : Ctx) : Ctx :=
  if structural_tags.contains e.tag then ctx
  else if e.attrs.isEmpty then ctx
  else
    { ctx with
        annotations := ctx.annotations ++
          [{ type := e.tag, attributes := e.attrs,
             text := some (get_element_text e), alternative_text := none,
             start_offset := start_offset, end_offset := ctx.global_offset,
             page := ctx.current_page }] }

/-- Python truthiness of an optional string: `None` and `""` are falsy. -/
def truthy (o : Option (List Char)) : Bool :=
  match o with
  | some (_ :: _) => true
  | _ => false

/-- The guarded appends `if chosen_text: add_text_to_context(...)` and
`if add_text: add_text_to_context(...)`; `add_text_to_context` is already the
identity on empty text, so only the `none` guard matters. -/
def add_opt_text (o : Option (List Char)) (ctx : Ctx) : Ctx :=
  match o with
  | some t => add_text_to_context t ctx
  | none => ctx

/-- The page-break handler body (convert.py 176–182): a truthy `n` attribute
appends a page record at the current position and becomes the current page. -/
def pb_update (attrs : List (String × String)) (ctx : Ctx) : Ctx :=
  match lookup_attr "n" attrs with
  | some n =>
    if n.isEmpty then ctx
    else { ctx with
             current_page := some n,
             pages := ctx.pages ++ [(n, ctx.global_offset)] }
  | none => ctx

mutual
/-- `process_element` (convert.py 170–320): dispatch on the tag into the
page-break, line-break, choice, note and substitution handlers, with the
generic-container path as default. -/
def process_element (e : Elem) (ctx : Ctx) : Ctx :=
  match e with
  | .mk tag attrs txt children _tail =>
    let start_offset := ctx.global_offset
    if tag = "pb" then
      maybe_generic_ann e start_offset (pb_update attrs ctx)
    else if tag = "lb" then
      maybe_generic_ann e start_offset (push_char '\n' true true ctx)
    else if tag = "choice" then
      let abbr_text := (find_desc "abbr" e).map get_element_text
      let expan_text := (find_desc "expan" e).map get_element_text
      let chosen_text := if truthy expan_text then expan_text else abbr_text
      let alternative_text :=
        if chosen_text = expan_text then abbr_text else expan_text
      let ctx1 := add_opt_text chosen_text ctx
      { ctx1 with
          annotations := ctx1.annotations ++
            [{ type := "choice", text := chosen_text,
               alternative_text := alternative_text,
               start_offset := start_offset, end_offset := ctx1.global_offset,
               page := ctx1.current_page }] }
    else if tag = "note" then
      let ctx1 :=
        if ctx.last_char_is_whitespace then ctx
        else push_char ' ' false true ctx
      let note_text := get_element_text e
      let note_start := ctx1.global_offset
      { ctx1 with
          annotations := ctx1.annotations ++
            [{ type := "note", text := some note_text,
               alternative_text := none,
               start_offset := note_start,
               end_offset := note_start + note_text.length,
               page := ctx1.current_page }] }
    else if tag = "subst" then
      let del_text := (find_desc "del" e).map get_element_text
      let add_text := (find_desc "add" e).map get_element_text
      let ctx1 := add_opt_text add_text ctx
      { ctx1 with
          annotations := ctx1.annotations ++
            [{ type := "substitution", text := add_text,
               alternative_text := del_text,
               start_offset := start_offset, end_offset := ctx1.global_offset,
               page := ctx1.current_page,
               details := some (del_text, add_text) }] }
    else
      let ctx1 := add_opt_text txt ctx
      let ctx2 := process_children children ctx1
      maybe_generic_ann e start_offset ctx2

/-- The child loop of the generic-container path (convert.py 280–285):
process each child, then append its tail text. -/
def process_children (cs : ElemList) (ctx : Ctx) : Ctx :=
  match cs with
  | .nil => ctx
  | .cons child rest =>
    let ctx1 := process_element child ctx
    let ctx2 := add_opt_text child.tail ctx1
    process_children rest ctx2
end

/-- The fresh `context` of `extract_document_data` (convert.py 99–107). -/
def init_context : Ctx :=
  { text_content := [], annotations := [], pages := [],
    current_page := none, global_offset := 0,
    last_char_is_whitespace := true }

/-- The per-document result of `extract_document_data` (text joined from the
buffer, annotation and page lists); metadata and file paths are out of
scope. -/
structure DocData where
  text : List Char
  annotations : List Ann
  pages : List (String × Nat)
deriving DecidableEq, Repr

/-- `extract_document_data` (convert.py 86–123) restricted to its extraction
core: run `process_element` on the body from the fresh context and package the
result. -/
def extract_document_data (body : Elem) : DocData :=
  let ctx := process_element body init_context
  { text := ctx.text_content.map Prod.fst,
    annotations := ctx.annotations,
    pages := ctx.pages }

/-- `process_corpus` (convert.py 67–83): per subdirectory, extract every file,
keeping successful documents and skipping (only) failed ones; the per-file
outcome is abstracted as an oracle from file path to result-or-error. -/
def process_corpus (extract : String → Except String DocData)
    (xml_files_by_subdir : List (String × List String)) :
    List (String × List DocData) :=
  xml_files_by_subdir.map
    (fun p => (p.1, p.2.filterMap (fun f => (extract f).toOption)))

/-- The annotation types written out by `convert_to_lcp`
(convert.py 393–404). -/
def annotation_types : List String :=
  ["placeName", "choice", "origDate", "persName", "substitution", "date"]

/-- Python slice `l[s:e]` for natural `s ≤ e` bounds. -/
def py_slice (l : List Char) (s e : Nat) : List Char := (l.take e).drop s

/-- Python `text.replace("\n", "")`. -/
def remove_newlines (l : List Char) : List Char := l.filter (fun c => c ≠ '\n')

/-- The reconciliation test of `convert_to_lcp` (convert.py 622–631): the live
slice must equal the stored text, or — fallback — the same index range taken
from the document text with all newlines removed must equal the stored text. -/
def check_cond (text : List Char) (a : Ann) : Bool :=
  decide (a.text = some (py_slice text a.start_offset a.end_offset)) ||
  decide (a.text = some (py_slice (remove_newlines text) a.start_offset a.end_offset))

/-- One iteration of the annotation loop of `convert_to_lcp`
(convert.py 612–725).  The state is the pair of the loop variable `text`
(initially the document text) and the annotations written so far.  An
annotation of an unhandled type is skipped; a handled one is written iff
`check_cond` accepts it against the CURRENT `text`; a written placeName or
persName annotation rebinds `text` to its own stored text
(`text = annotation.get("text", "")`, convert.py 642 and 699), changing the
comparison basis for every later annotation of the same document.  (The
rebinding is only reached after `check_cond` passed, which forces the stored
text to be an actual string, so `Option.getD []` is exact there.) -/
def reconcile_step (st : List Char × List Ann) (a : Ann) : List Char × List Ann :=
  if annotation_types.contains a.type then
    if check_cond st.1 a then
      (if a.type = "placeName" ∨ a.type = "persName" then a.text.getD []
       else st.1,
       st.2 ++ [a])
    else st
  else st

/-- Keep/drop result of the annotation loop of `convert_to_lcp`
(convert.py 612–725) for one document: fold the loop over the annotation list
starting from the document text; the written annotations are the second
component.  CSV row formatting is out of scope. -/
def reconcile_anns (doc_text : List Char) (anns : List Ann) : List Ann :=
  (anns.foldl reconcile_step (doc_text, [])).2

/-- The reconciliation fallback as the specification words it: compare the
slice and the stored text after stripping newline characters from both. -/
def check_cond_claimed (text : List Char) (a : Ann) : Bool :=
  let slice := py_slice text a.start_offset a.end_offset
  decide (a.text = some slice) ||
  decide (a.text.map remove_newlines = some (remove_newlines slice))

/-- Adjacent characters may not both be whitespace. -/
def noAdjWs (a b : Char) : Prop := ¬(isSpace a = true ∧ isSpace b = true)

/-!  Concrete example trees used by the claims. -/

/-- Example document for claim C1: `<p>Hi <persName ref="...">Anna</persName></p>`. -/
def C1body : Elem :=
  Elem.mk "p" [] (some "Hi ".toList)
    (.cons (Elem.mk "persName" [("ref", "per000123")] (some "Anna".toList)
      .nil none) .nil) none

/-- The generic record expected from `C1body`. -/
def C1ann : Ann :=
  { type := "persName", attributes := [("ref", "per000123")],
    text := some "Anna".toList, alternative_text := none,
    start_offset := 3, end_offset := 7, page := none }

/-- Example document for claim C2: `"a "` followed by a line break, then `"b"`. -/
def C2body : Elem :=
  Elem.mk "p" [] (some "a ".toList)
    (.cons (Elem.mk "lb" [] none .nil (some "b".toList)) .nil) none

/-- Example document for claim C3: `"foo<lb/>bar"`. -/
def C3body : Elem :=
  Elem.mk "p" [] (some "foo".toList)
    (.cons (Elem.mk "lb" [] none .nil (some "bar".toList)) .nil) none

/-- The choice node of claim C4's scenario. -/
def C4choice : Elem :=
  Elem.mk "choice" [] none
    (.cons (Elem.mk "abbr" [] (some "Jan.".toList) .nil none)
      (.cons (Elem.mk "expan" [] (some "January".toList) .nil none) .nil))
    (some " 1291".toList)

/-- Example document for claim C4: `"Treaty of <choice>…</choice> 1291"`. -/
def C4body : Elem :=
  Elem.mk "p" [] (some "Treaty of ".toList) (.cons C4choice .nil) none

/-- The choice record expected from `C4body`. -/
def C4ann : Ann :=
  { type := "choice", text := some "January".toList,
    alternative_text := some "Jan.".toList,
    start_offset := 10, end_offset := 17, page := none }

/-- The substitution node of claim C5's scenario. -/
def C5subst : Elem :=
  Elem.mk "subst" [] none
    (.cons (Elem.mk "del" [] (some "teh".toList) .nil none)
      (.cons (Elem.mk "add" [] (some "the".toList) .nil none) .nil))
    (some " y".toList)

/-- Example document for claim C5: `"x <subst>…</subst> y"`. -/
def C5body : Elem :=
  Elem.mk "p" [] (some "x ".toList) (.cons C5subst .nil) none

/-- The substitution record expected from `C5body`. -/
def C5ann : Ann :=
  { type := "substitution", text := some "the".toList,
    alternative_text := some "teh".toList,
    start_offset := 2, end_offset := 5, page := none,
    details := some (some "teh".toList, some "the".toList) }

/-- Example document for claim C6: `"word<note>comment</note>next"`. -/
def C6body : Elem :=
  Elem.mk "p" [] (some "word".toList)
    (.cons (Elem.mk "note" [] (some "comment".toList) .nil
      (some "next".toList)) .nil) none

/-- The note record expected from `C6body`. -/
def C6ann : Ann :=
  { type := "note", text := some "comment".toList, alternative_text := none,
    start_offset := 5, end_offset := 12, page := none }

mutual
/-- The canonical-text extractor exactly as the specification sentence of
claim C7 words it: same recursive concatenation as `get_element_text`, but
with EVERY internal whitespace run (also runs of length one) collapsed to a
single space, after trimming. -/
def canonical_claimed : Elem → List Char
  | .mk _ _ txt ch _ =>
    collapse_ws (strip_chars (txt.getD [] ++ elem_list_claimed ch))

/-- Child-list companion of `canonical_claimed`. -/
def elem_list_claimed : ElemList → List Char
  | .nil => []
  | .cons e rest =>
    (if e.tag = "del" then [] else canonical_claimed e) ++ e.tail.getD []
      ++ elem_list_claimed rest
end

/-- A node whose direct text contains a lone tab between letters. -/
def C7tabElem : Elem := Elem.mk "persName" [] (some "a\tb".toList) .nil none

/-- A deletion-tagged element used in the C7 witness. -/
def C7delElem : Elem :=
  Elem.mk "del" [] (some "xx".toList) .nil (some " t".toList)

/-- A plain node used in the C7 witness. -/
def C7qElem : Elem := Elem.mk "p" [] (some "qr".toList) .nil none

/-- The document text and the mismatching record of the C8 counterexample. -/
def C8text : List Char := "x\nab".toList

/-- A record whose direct slice check fails but whose code fallback passes. -/
def C8ann : Ann :=
  { type := "choice", text := some "ab".toList, alternative_text := none,
    start_offset := 1, end_offset := 3, page := none }

/-- Document text of the rebinding counterexample. -/
def C8docText : List Char := "abc".toList

/-- A placeName record that is kept and rebinds the comparison text. -/
def C8pn : Ann :=
  { type := "placeName", attributes := [("ref", "loc000001")],
    text := some "a".toList, alternative_text := none,
    start_offset := 0, end_offset := 1, page := none }

/-- A choice record whose slice matches the document text but not the rebound
comparison text. -/
def C8choice2 : Ann :=
  { type := "choice", text := some "bc".toList, alternative_text := none,
    start_offset := 1, end_offset := 3, page := none }

/-- A non-note record of an unhandled type whose slice matches the document
text. -/
def C8hi : Ann :=
  { type := "hi", attributes := [("rend", "italic")],
    text := some "b".toList, alternative_text := none,
    start_offset := 1, end_offset := 2, page := none }

/-- Extraction oracle for the C9 witness: one unreadable file among good
ones. -/
def C9extract (f : String) : Except String DocData :=
  if f = "bad" then Except.error "unreadable document"
  else Except.ok { text := [], annotations := [], pages := [] }

/-- Example document for the C10 witness: tab-separated words and a line
break. -/
def C10body : Elem :=
  Elem.mk "p" [] (some "u\tv".toList)
    (.cons (Elem.mk "lb" [] none .nil (some "w".toList)) .nil) none

/-!  Invariants of the traversal state. -/

/-- Whether the buffer currently ends in whitespace; an empty buffer counts as
whitespace, matching the initial `last_char_is_whitespace = True`. -/
def lastWs (l : List (Char × Bool)) : Bool :=
  match l.getLast? with
  | none => true
  | some p => isSpace p.1

/-- Adjacency relation of the whitespace law: two consecutive whitespace
characters may occur only when the second one is a forced line-break
newline (ghost flag `true`). -/
def wsR (a b : Char × Bool) : Prop :=
  isSpace a.1 = true → isSpace b.1 = true → b = ('\n', true)

/-- The whitespace law over the whole buffer. -/
def noTwoWs (l : List (Char × Bool)) : Prop := List.Chain' wsR l

/-- Every whitespace character in the buffer is either a plain space from the
suppressing append path or a forced line-break newline. -/
def wsCanon (l : List (Char × Bool)) : Prop :=
  ∀ p ∈ l, isSpace p.1 = true → p = (' ', false) ∨ p = ('\n', true)

/-- Every non-note record has ordered offsets that stay within `off`. -/
def annBounds (off : Nat) (anns : List Ann) : Prop :=
  ∀ a ∈ anns, a.type ≠ "note" →
    a.start_offset ≤ a.end_offset ∧ a.end_offset ≤ off

/-- Invariant tying the traversal context together: the position counter equals
the number of characters appended so far, the whitespace flag reflects the end
of the buffer, the buffer satisfies the whitespace laws, and all recorded
non-note spans lie within the buffer. -/
structure CtxInv (ctx : Ctx) : Prop where
  off_eq : ctx.global_offset = ctx.text_content.length
  flag_eq : ctx.last_char_is_whitespace = lastWs ctx.text_content
  no_two : noTwoWs ctx.text_content
  canon : wsCanon ctx.text_content
  bounds : annBounds ctx.global_offset ctx.annotations

/-- What one traversal step guarantees: the position counter never decreases,
the counter-equals-length property is preserved, and the full invariant is
preserved. -/
def StepOK (ctx ctx' : Ctx) : Prop :=
  ctx.global_offset ≤ ctx'.global_offset ∧
  (ctx.global_offset = ctx.text_content.length →
    ctx'.global_offset = ctx'.text_content.length) ∧
  (CtxInv ctx → CtxInv ctx')

theorem stepOK_refl (ctx : Ctx) : StepOK ctx ctx :=
  ⟨le_refl _, fun h => h, fun h => h⟩

theorem stepOK_trans {a b c : Ctx} (h1 : StepOK a b) (h2 : StepOK b c) :
    StepOK a c :=
  ⟨le_trans h1.1 h2.1, fun h => h2.2.1 (h1.2.1 h), fun h => h2.2.2 (h1.2.2 h)⟩

theorem lastWs_append (l : List (Char × Bool)) (p : Char × Bool) :
    lastWs (l ++ [p]) = isSpace p.1 := by
  simp [lastWs, List.getLast?_concat]

theorem noTwoWs_nil : noTwoWs [] := List.chain'_nil

theorem noTwoWs_append {l : List (Char × Bool)} {c : Char} {f : Bool}
    (h : noTwoWs l)
    (hc : isSpace c = true → lastWs l = true → (c, f) = ('\n', true)) :
    noTwoWs (l ++ [(c, f)]) := by
  unfold noTwoWs at h ⊢
  rw [List.chain'_append]
  refine ⟨h, List.chain'_singleton _, ?_⟩
  intro x hx y hy
  have hy' : (c, f) = y := by simpa using hy
  subst hy'
  intro hsx hsy
  refine hc hsy ?_
  have hx' : l.getLast? = some x := Option.mem_def.mp hx
  simp [lastWs, hx', hsx]

theorem wsCanon_append {l : List (Char × Bool)} {c : Char} {f : Bool}
    (h : wsCanon l)
    (hc : isSpace c = true → (c, f) = (' ', false) ∨ (c, f) = ('\n', true)) :
    wsCanon (l ++ [(c, f)]) := by
  intro p hp hsp
  rcases List.mem_append.mp hp with hmem | hmem
  · exact h p hmem hsp
  · have : p = (c, f) := by simpa using hmem
    subst this
    exact hc hsp

theorem annBounds_mono {off off' : Nat} {anns : List Ann}
    (h : annBounds off anns) (hle : off ≤ off') : annBounds off' anns := by
  intro a ha hne
  exact ⟨(h a ha hne).1, le_trans (h a ha hne).2 hle⟩

theorem annBounds_append {off : Nat} {anns : List Ann} {a : Ann}
    (h : annBounds off anns)
    (ha : a.type ≠ "note" → a.start_offset ≤ a.end_offset ∧ a.end_offset ≤ off) :
    annBounds off (anns ++ [a]) := by
  intro b hb hne
  rcases List.mem_append.mp hb with hmem | hmem
  · exact h b hmem hne
  · have : b = a := by simpa using hmem
    subst this
    exact ha hne

theorem push_step {ctx : Ctx} {c : Char} {f ws : Bool}
    (hws : ws = isSpace c)
    (hflag : isSpace c = true →
      ctx.last_char_is_whitespace = false ∨ (c = '\n' ∧ f = true))
    (hcanon : isSpace c = true →
      (c = ' ' ∧ f = false) ∨ (c = '\n' ∧ f = true)) :
    StepOK ctx (push_char c f ws ctx) := by
  refine ⟨Nat.le_succ _, ?_, ?_⟩
  · intro h
    simp [push_char, h]
  · intro h
    refine ⟨?_, ?_, ?_, ?_, ?_⟩
    · simp [push_char, h.off_eq]
    · simp [push_char, lastWs_append, hws]
    · refine noTwoWs_append h.no_two ?_
      intro hs hl
      rcases hflag hs with hfalse | ⟨hc, hf⟩
      · rw [h.flag_eq] at hfalse
        rw [hfalse] at hl
        exact absurd hl (by simp)
      · subst hc; subst hf; rfl
    · refine wsCanon_append h.canon ?_
      intro hs
      rcases hcanon hs with ⟨hc, hf⟩ | ⟨hc, hf⟩
      · subst hc; subst hf; exact Or.inl rfl
      · subst hc; subst hf; exact Or.inr rfl
    · exact annBounds_mono h.bounds (Nat.le_succ _)

theorem collapse_ws_aux_space :
    ∀ (b : Bool) (l : List Char) (c : Char),
      c ∈ collapse_ws_aux b l → isSpace c = true → c = ' ' := by
  intro b l
  induction l generalizing b with
  | nil => intro c hc; simp [collapse_ws_aux] at hc
  | cons x rest ih =>
    intro c hc hs
    by_cases hx : isSpace x = true
    · by_cases hb : b = true
      · subst hb
        simp only [collapse_ws_aux, hx, if_pos, if_true] at hc
        exact ih true c hc hs
      · have hb' : b = false := by
          cases b
          · rfl
          · exact absurd rfl hb
        subst hb'
        simp only [collapse_ws_aux, hx, if_true, if_false, Bool.false_eq_true,
          List.mem_cons] at hc
        rcases hc with hc | hc
        · exact hc
        · exact ih true c hc hs
    · simp only [collapse_ws_aux, hx, if_false, Bool.false_eq_true,
        List.mem_cons] at hc
      rcases hc with hc | hc
      · subst hc; exact absurd hs hx
      · exact ih false c hc hs

/-- The character loop leaves the annotation list, the pages and the current
page untouched, never decreases the position counter, and preserves the full
invariant whenever every whitespace character of its input is a plain space
(as guaranteed by the `\s+` pre-collapse). -/
theorem add_chars_spec (l : List Char) :
    ∀ ctx : Ctx,
      (add_chars l ctx).annotations = ctx.annotations ∧
      (add_chars l ctx).pages = ctx.pages ∧
      (add_chars l ctx).current_page = ctx.current_page ∧
      ((∀ c ∈ l, isSpace c = true → c = ' ') → StepOK ctx (add_chars l ctx)) := by
  induction l with
  | nil =>
    intro ctx
    exact ⟨rfl, rfl, rfl, fun _ => stepOK_refl ctx⟩
  | cons c rest ih =>
    intro ctx
    by_cases hc : isSpace c = true
    · by_cases hflag : ctx.last_char_is_whitespace = true
      · have hgoal : add_chars (c :: rest) ctx = add_chars rest ctx := by
          simp [add_chars, hc, hflag]
        rw [hgoal]
        refine ⟨(ih ctx).1, (ih ctx).2.1, (ih ctx).2.2.1, ?_⟩
        intro hws
        exact (ih ctx).2.2.2 (fun d hd => hws d (List.mem_cons_of_mem _ hd))
      · have hflag' : ctx.last_char_is_whitespace = false := by
          cases h : ctx.last_char_is_whitespace
          · rfl
          · exact absurd h hflag
        have hgoal : add_chars (c :: rest) ctx =
            add_chars rest (push_char c false true ctx) := by
          simp [add_chars, hc, hflag']
        rw [hgoal]
        refine ⟨(ih _).1, (ih _).2.1, (ih _).2.2.1, ?_⟩
        intro hws
        refine stepOK_trans ?_
          ((ih _).2.2.2 (fun d hd => hws d (List.mem_cons_of_mem _ hd)))
        have hcq : c = ' ' := hws c (List.mem_cons_self _ _) hc
        refine push_step (by rw [hc]) (fun _ => Or.inl hflag') ?_
        intro _
        exact Or.inl ⟨hcq, rfl⟩
    · have hgoal : add_chars (c :: rest) ctx =
          add_chars rest (push_char c false false ctx) := by
        simp [add_chars, hc]
      rw [hgoal]
      refine ⟨(ih _).1, (ih _).2.1, (ih _).2.2.1, ?_⟩
      intro hws
      refine stepOK_trans ?_
        ((ih _).2.2.2 (fun d hd => hws d (List.mem_cons_of_mem _ hd)))
      refine push_step ?_ (fun hs => absurd hs hc) (fun hs => absurd hs hc)
      cases h : isSpace c
      · rfl
      · exact absurd h hc

/-- `add_text_to_context` is one well-behaved traversal step. -/
theorem add_text_step (t : List Char) (ctx : Ctx) :
    StepOK ctx (add_text_to_context t ctx) := by
  unfold add_text_to_context
  by_cases h : t.isEmpty
  · rw [if_pos h]; exact stepOK_refl ctx
  · rw [if_neg h]
    exact (add_chars_spec (collapse_ws t) ctx).2.2.2
      (fun c hc => collapse_ws_aux_space false t c hc)

/-- The guarded optional append is one well-behaved traversal step. -/
theorem add_opt_step (o : Option (List Char)) (ctx : Ctx) :
    StepOK ctx (add_opt_text o ctx) := by
  cases o with
  | none => exact stepOK_refl ctx
  | some t => exact add_text_step t ctx

/-- Appending one record whose bounds are in order (unless it is a note)
is a well-behaved step. -/
theorem ann_append_step (ctx : Ctx) (a : Ann)
    (h : a.type ≠ "note" →
      a.start_offset ≤ a.end_offset ∧ a.end_offset ≤ ctx.global_offset) :
    StepOK ctx { ctx with annotations := ctx.annotations ++ [a] } := by
  refine ⟨le_refl _, fun hh => hh, ?_⟩
  intro hinv
  exact ⟨hinv.off_eq, hinv.flag_eq, hinv.no_two, hinv.canon,
    annBounds_append hinv.bounds h⟩

/-- The generic-span check is a well-behaved step whenever the remembered
entry position does not exceed the current one. -/
theorem maybe_generic_step (e : Elem) (s : Nat) (ctx : Ctx)
    (h : s ≤ ctx.global_offset) :
    StepOK ctx (maybe_generic_ann e s ctx) := by
  unfold maybe_generic_ann
  by_cases h1 : structural_tags.contains e.tag
  · rw [if_pos h1]; exact stepOK_refl ctx
  · rw [if_neg h1]
    by_cases h2 : e.attrs.isEmpty
    · rw [if_pos h2]; exact stepOK_refl ctx
    · rw [if_neg h2]
      exact ann_append_step ctx _ (fun _ => ⟨h, le_refl _⟩)

/-- The page-break update does not move the position counter. -/
theorem pb_update_offset (attrs : List (String × String)) (ctx : Ctx) :
    (pb_update attrs ctx).global_offset = ctx.global_offset := by
  unfold pb_update
  cases lookup_attr "n" attrs with
  | none => rfl
  | some n =>
    dsimp only
    by_cases hn : n.isEmpty
    · rw [if_pos hn]
    · rw [if_neg hn]

/-- The page-break update is a well-behaved step (it only touches the page
list and the current page). -/
theorem pb_update_step (attrs : List (String × String)) (ctx : Ctx) :
    StepOK ctx (pb_update attrs ctx) := by
  unfold pb_update
  cases lookup_attr "n" attrs with
  | none => exact stepOK_refl ctx
  | some n =>
    dsimp only
    by_cases hn : n.isEmpty
    · rw [if_pos hn]; exact stepOK_refl ctx
    · rw [if_neg hn]
      exact ⟨le_refl _, fun hh => hh,
        fun h => ⟨h.off_eq, h.flag_eq, h.no_two, h.canon, h.bounds⟩⟩

mutual
/-- Main traversal lemma: every dispatch of `process_element` is a
well-behaved step (position counter non-decreasing, counter equals characters
appended, whitespace and offset invariants preserved). -/
theorem process_element_step (e : Elem) :
    ∀ ctx : Ctx, StepOK ctx (process_element e ctx) := by
  cases e with
  | mk tag attrs txt ch tl =>
    intro ctx
    rw [process_element.eq_def]
    dsimp only
    by_cases h1 : tag = "pb"
    · rw [if_pos h1]
      refine stepOK_trans (pb_update_step attrs ctx) ?_
      have hoff := pb_update_offset attrs ctx
      exact maybe_generic_step _ ctx.global_offset _ (le_of_eq hoff.symm)
    · rw [if_neg h1]
      by_cases h2 : tag = "lb"
      · rw [if_pos h2]
        refine stepOK_trans ?_ (maybe_generic_step _ ctx.global_offset _ ?_)
        · exact push_step (by decide)
            (fun _ => Or.inr ⟨rfl, rfl⟩) (fun _ => Or.inr ⟨rfl, rfl⟩)
        · exact Nat.le_succ _
      · rw [if_neg h2]
        by_cases h3 : tag = "choice"
        · rw [if_pos h3]
          refine stepOK_trans (add_opt_step _ ctx) (ann_append_step _ _ ?_)
          intro _
          exact ⟨(add_opt_step _ ctx).1, le_refl _⟩
        · rw [if_neg h3]
          by_cases h4 : tag = "note"
          · rw [if_pos h4]
            by_cases hflag : ctx.last_char_is_whitespace = true
            · rw [if_pos hflag]
              exact ann_append_step _ _ (fun hne => absurd rfl hne)
            · have hflag' : ctx.last_char_is_whitespace = false := by
                cases h : ctx.last_char_is_whitespace
                · rfl
                · exact absurd h hflag
              rw [if_neg hflag]
              refine stepOK_trans ?_
                (ann_append_step _ _ (fun hne => absurd rfl hne))
              exact push_step (by decide) (fun _ => Or.inl hflag')
                (fun _ => Or.inl ⟨rfl, rfl⟩)
          · rw [if_neg h4]
            by_cases h5 : tag = "subst"
            · rw [if_pos h5]
              refine stepOK_trans (add_opt_step _ ctx) (ann_append_step _ _ ?_)
              intro _
              exact ⟨(add_opt_step _ ctx).1, le_refl _⟩
            · rw [if_neg h5]
              refine stepOK_trans (add_opt_step txt ctx) ?_
              refine stepOK_trans (process_children_step ch _) ?_
              refine maybe_generic_step _ ctx.global_offset _ ?_
              exact le_trans (add_opt_step txt ctx).1
                (process_children_step ch _).1

/-- Child-loop companion of `process_element_step`. -/
theorem process_children_step (cs : ElemList) :
    ∀ ctx : Ctx, StepOK ctx (process_children cs ctx) := by
  cases cs with
  | nil =>
    intro ctx
    rw [process_children.eq_def]
    exact stepOK_refl ctx
  | cons child rest =>
    intro ctx
    rw [process_children.eq_def]
    dsimp only
    refine stepOK_trans (process_element_step child ctx) ?_
    exact stepOK_trans (add_opt_step child.tail _) (process_children_step rest _)
end

/-- The fresh context satisfies the invariant. -/
theorem init_context_inv : CtxInv init_context := by
  refine ⟨rfl, rfl, noTwoWs_nil, ?_, ?_⟩
  · intro p hp
    simp [init_context] at hp
  · intro a ha
    simp [init_context] at ha

/-- The optional append touches only the buffer, the counter and the flag. -/
theorem add_opt_effects (o : Option (List Char)) (ctx : Ctx) :
    (add_opt_text o ctx).annotations = ctx.annotations ∧
    (add_opt_text o ctx).pages = ctx.pages ∧
    (add_opt_text o ctx).current_page = ctx.current_page := by
  cases o with
  | none => exact ⟨rfl, rfl, rfl⟩
  | some t =>
    have h0 : add_opt_text (some t) ctx = add_text_to_context t ctx := rfl
    rw [h0]
    unfold add_text_to_context
    by_cases h : t.isEmpty
    · rw [if_pos h]; exact ⟨rfl, rfl, rfl⟩
    · rw [if_neg h]
      exact ⟨(add_chars_spec _ ctx).1, (add_chars_spec _ ctx).2.1,
        (add_chars_spec _ ctx).2.2.1⟩

/-- The value stored as `alternative_text` by the choice handler always equals
the side that was not chosen (even in the degenerate tie, where both sides
carry the same value). -/
theorem alt_value (abbr_text expan_text : Option (List Char)) :
    (if (if truthy expan_text then expan_text else abbr_text) = expan_text
     then abbr_text else expan_text) =
      (if truthy expan_text then abbr_text else expan_text) := by
  by_cases h : truthy expan_text = true
  · simp [h]
  · simp only [h, Bool.false_eq_true, if_false]
    by_cases heq : abbr_text = expan_text
    · simp [heq]
    · simp [heq]

/-- Unfolded form of the line-break dispatch. -/
theorem pe_lb (attrs : List (String × String)) (txt : Option (List Char))
    (ch : ElemList) (tl : Option (List Char)) (ctx : Ctx) :
    process_element (Elem.mk "lb" attrs txt ch tl) ctx =
      { ctx with
          text_content := ctx.text_content ++ [('\n', true)],
          global_offset := ctx.global_offset + 1,
          last_char_is_whitespace := true } := by
  rfl

/-- Unfolded form of the choice dispatch (exact code shape). -/
theorem pe_choice (attrs : List (String × String)) (txt : Option (List Char))
    (ch : ElemList) (tl : Option (List Char)) (ctx : Ctx) :
    process_element (Elem.mk "choice" attrs txt ch tl) ctx =
      (let e := Elem.mk "choice" attrs txt ch tl
       let abbr_text := (find_desc "abbr" e).map get_element_text
       let expan_text := (find_desc "expan" e).map get_element_text
       let chosen_text := if truthy expan_text then expan_text else abbr_text
       let alternative_text :=
         if chosen_text = expan_text then abbr_text else expan_text
       let ctx1 := add_opt_text chosen_text ctx
       { ctx1 with
           annotations := ctx1.annotations ++
             [{ type := "choice", text := chosen_text,
                alternative_text := alternative_text,
                start_offset := ctx.global_offset,
                end_offset := ctx1.global_offset,
                page := ctx1.current_page }] }) := by
  rfl

/-- Unfolded form of the note dispatch (exact code shape). -/
theorem pe_note (attrs : List (String × String)) (txt : Option (List Char))
    (ch : ElemList) (tl : Option (List Char)) (ctx : Ctx) :
    process_element (Elem.mk "note" attrs txt ch tl) ctx =
      (let e := Elem.mk "note" attrs txt ch tl
       let ctx1 :=
         if ctx.last_char_is_whitespace = true then ctx
         else push_char ' ' false true ctx
       let note_text := get_element_text e
       { ctx1 with
           annotations := ctx1.annotations ++
             [{ type := "note", text := some note_text,
                alternative_text := none,
                start_offset := ctx1.global_offset,
                end_offset := ctx1.global_offset + note_text.length,
                page := ctx1.current_page }] }) := by
  rfl

/-- Unfolded form of the substitution dispatch (exact code shape). -/
theorem pe_subst (attrs : List (String × String)) (txt : Option (List Char))
    (ch : ElemList) (tl : Option (List Char)) (ctx : Ctx) :
    process_element (Elem.mk "subst" attrs txt ch tl) ctx =
      (let e := Elem.mk "subst" attrs txt ch tl
       let del_text := (find_desc "del" e).map get_element_text
       let add_text := (find_desc "add" e).map get_element_text
       let ctx1 := add_opt_text add_text ctx
       { ctx1 with
           annotations := ctx1.annotations ++
             [{ type := "substitution", text := add_text,
                alternative_text := del_text,
                start_offset := ctx.global_offset,
                end_offset := ctx1.global_offset,
                page := ctx1.current_page,
                details := some (del_text, add_text) }] }) := by
  rfl

/-- After a run has been collapsed, the next emitted character (if any) is not
whitespace. -/
theorem collapse_runs_collapsed_head :
    ∀ (l : List Char) (c : Char),
      (collapse_runs_aux .collapsed l).head? = some c → isSpace c = false := by
  intro l
  induction l with
  | nil => intro c hc; simp [collapse_runs_aux] at hc
  | cons x rest ih =>
    intro c hc
    by_cases hx : isSpace x = true
    · rw [show collapse_runs_aux .collapsed (x :: rest) =
          collapse_runs_aux .collapsed rest by simp [collapse_runs_aux, hx]] at hc
      exact ih c hc
    · rw [show collapse_runs_aux .collapsed (x :: rest) =
          x :: collapse_runs_aux .clear rest by simp [collapse_runs_aux, hx]] at hc
      have hc' : x = c := by simpa using hc
      subst hc'
      simpa using hx

/-- The output of the run collapser never contains two adjacent whitespace
characters, whatever the scanner state. -/
theorem collapse_runs_chain :
    ∀ (l : List Char) (st : RunState),
      List.Chain' noAdjWs (collapse_runs_aux st l) := by
  intro l
  induction l with
  | nil =>
    intro st
    cases st with
    | clear => exact List.chain'_nil
    | pending w => exact List.chain'_singleton _
    | collapsed => exact List.chain'_nil
  | cons x rest ih =>
    intro st
    by_cases hx : isSpace x = true
    · cases st with
      | clear =>
        rw [show collapse_runs_aux .clear (x :: rest) =
            collapse_runs_aux (.pending x) rest by simp [collapse_runs_aux, hx]]
        exact ih _
      | pending w =>
        rw [show collapse_runs_aux (.pending w) (x :: rest) =
            ' ' :: collapse_runs_aux .collapsed rest by
              simp [collapse_runs_aux, hx]]
        rw [List.chain'_cons']
        refine ⟨?_, ih _⟩
        intro y hy hcon
        have hhd := collapse_runs_collapsed_head rest y (Option.mem_def.mp hy)
        rw [hcon.2] at hhd
        exact absurd hhd (by decide)
      | collapsed =>
        rw [show collapse_runs_aux .collapsed (x :: rest) =
            collapse_runs_aux .collapsed rest by simp [collapse_runs_aux, hx]]
        exact ih _
    · cases st with
      | clear =>
        rw [show collapse_runs_aux .clear (x :: rest) =
            x :: collapse_runs_aux .clear rest by simp [collapse_runs_aux, hx]]
        rw [List.chain'_cons']
        exact ⟨fun y _ hcon => hx hcon.1, ih _⟩
      | pending w =>
        rw [show collapse_runs_aux (.pending w) (x :: rest) =
            w :: x :: collapse_runs_aux .clear rest by
              simp [collapse_runs_aux, hx]]
        rw [List.chain'_cons', List.chain'_cons']
        refine ⟨?_, ?_, ih _⟩
        · intro y hy hcon
          have hy' : x = y := by simpa using hy
          subst hy'
          exact hx hcon.2
        · exact fun y _ hcon => hx hcon.1
      | collapsed =>
        rw [show collapse_runs_aux .collapsed (x :: rest) =
            x :: collapse_runs_aux .clear rest by simp [collapse_runs_aux, hx]]
        rw [List.chain'_cons']
        exact ⟨fun y _ hcon => hx hcon.1, ih _⟩

/-- The head after dropping leading whitespace is not whitespace. -/
theorem dropWhile_space_head :
    ∀ (l : List Char) (c : Char),
      (l.dropWhile isSpace).head? = some c → isSpace c = false := by
  intro l
  induction l with
  | nil => intro c hc; simp at hc
  | cons x rest ih =>
    intro c hc
    by_cases hx : isSpace x = true
    · rw [List.dropWhile_cons_of_pos hx] at hc
      exact ih c hc
    · rw [List.dropWhile_cons_of_neg hx] at hc
      have hc' : x = c := by simpa using hc
      subst hc'
      simpa using hx

/-- The head of a stripped string is not whitespace. -/
theorem strip_chars_head (l : List Char) (c : Char)
    (h : (strip_chars l).head? = some c) : isSpace c = false := by
  unfold strip_chars at h
  cases hm : l.dropWhile isSpace with
  | nil => rw [hm] at h; simp at h
  | cons a rest =>
    have ha : isSpace a = false := by
      refine dropWhile_space_head l a ?_
      rw [hm]; rfl
    rw [hm] at h
    have hrw : ((a :: rest).reverse.dropWhile isSpace).reverse =
        a :: (rest.reverse.dropWhile isSpace).reverse := by
      have h1 : (a :: rest).reverse = rest.reverse ++ [a] := by
        simp
      rw [h1, List.dropWhile_append]
      by_cases he : (rest.reverse.dropWhile isSpace).isEmpty
      · rw [if_pos he]
        rw [List.isEmpty_iff] at he
        rw [he]
        simp [List.dropWhile_cons, ha]
      · rw [if_neg he]
        simp
    rw [hrw] at h
    simp only [List.head?_cons, Option.some.injEq] at h
    subst h
    exact ha

/-- The head of the whitespace-normalised output is not whitespace. -/
theorem remove_extra_spaces_head (l : List Char) (c : Char)
    (h : (remove_extra_spaces l).head? = some c) : isSpace c = false := by
  unfold remove_extra_spaces at h
  cases hm : strip_chars l with
  | nil => rw [hm] at h; simp [collapse_runs_aux] at h
  | cons a rest =>
    have ha : isSpace a = false := by
      refine strip_chars_head l a ?_
      rw [hm]; rfl
    rw [hm] at h
    rw [show collapse_runs_aux .clear (a :: rest) =
        a :: collapse_runs_aux .clear rest by
          simp [collapse_runs_aux, ha]] at h
    simp only [List.head?_cons, Option.some.injEq] at h
    subst h
    exact ha

/-- The whitespace-normalised output has no two adjacent whitespace
characters. -/
theorem remove_extra_spaces_chain (l : List Char) :
    List.Chain' noAdjWs (remove_extra_spaces l) :=
  collapse_runs_chain (strip_chars l) .clear

/-- Skipping a deletion-tagged child: shared helper for the extractor
claims. -/
theorem elem_list_text_del (d : Elem) (rest : ElemList) (h : d.tag = "del") :
    elem_list_text (ElemList.cons d rest) =
      d.tail.getD [] ++ elem_list_text rest := by
  cases d with
  | mk t a tx c tl =>
    have ht : t = "del" := by simpa [Elem.tag] using h
    subst ht
    simp [elem_list_text, Elem.tag, Elem.tail]

/-!  The claims. -/

/-- Claim C1: for every input tree, every record produced by document
extraction except note records satisfies
`0 ≤ start_offset ≤ end_offset ≤ len(text)` for the final produced string
(`0 ≤` is inherent in `Nat`); the position counter is non-decreasing across
every traversal step and always equals the number of characters appended so
far. -/
theorem claim_C1 :
    (∀ (body : Elem) (a : Ann),
       a ∈ (extract_document_data body).annotations → a.type ≠ "note" →
       a.start_offset ≤ a.end_offset ∧
         a.end_offset ≤ (extract_document_data body).text.length) ∧
    (∀ (e : Elem) (ctx : Ctx),
       ctx.global_offset ≤ (process_element e ctx).global_offset) ∧
    (∀ (e : Elem) (ctx : Ctx),
       ctx.global_offset = ctx.text_content.length →
       (process_element e ctx).global_offset =
         (process_element e ctx).text_content.length) := by
  refine ⟨?_, ?_, ?_⟩
  · intro body a ha hna
    have hinv := (process_element_step body init_context).2.2 init_context_inv
    have ha' : a ∈ (process_element body init_context).annotations := by
      simpa [extract_document_data] using ha
    have hb := hinv.bounds a ha' hna
    refine ⟨hb.1, ?_⟩
    have hlen : (extract_document_data body).text.length =
        (process_element body init_context).text_content.length := by
      simp [extract_document_data]
    rw [hlen, ← hinv.off_eq]
    exact hb.2
  · intro e ctx
    exact (process_element_step e ctx).1
  · intro e ctx h
    exact (process_element_step e ctx).2.1 h

/-- Witness for claim C1 at the concrete `C1body` document. -/
theorem claim_C1_witness :
    (C1ann.start_offset ≤ C1ann.end_offset ∧
      C1ann.end_offset ≤ (extract_document_data C1body).text.length) ∧
    (process_element C1body init_context).global_offset =
      (process_element C1body init_context).text_content.length :=
  ⟨claim_C1.1 C1body C1ann (by decide) (by decide),
   claim_C1.2.2 C1body init_context (by decide)⟩

/-- Claim C2: the produced text never holds two consecutive whitespace
characters, except that the second one may be a newline emitted by the
line-break handler (ghost flag `true`). -/
theorem claim_C2 (body : Elem) :
    ∀ (i : Nat)
      (h : i + 1 < (process_element body init_context).text_content.length),
      isSpace ((process_element body init_context).text_content.get
          ⟨i, Nat.lt_of_succ_lt h⟩).1 = true →
      isSpace ((process_element body init_context).text_content.get
          ⟨i + 1, h⟩).1 = true →
      (process_element body init_context).text_content.get ⟨i + 1, h⟩ =
        ('\n', true) := by
  intro i h hs1 hs2
  have hinv := (process_element_step body init_context).2.2 init_context_inv
  have hchain := hinv.no_two
  unfold noTwoWs at hchain
  rw [List.chain'_iff_get] at hchain
  have hi : i < (process_element body init_context).text_content.length - 1 := by
    omega
  exact hchain i hi hs1 hs2

/-- Witness for claim C2: in `C2body` the space before the forced newline is
followed by the line-break newline. -/
theorem claim_C2_witness :
    (process_element C2body init_context).text_content.get ⟨2, by decide⟩ =
      ('\n', true) :=
  claim_C2 C2body 1 (by decide) (by decide) (by decide)

/-- Claim C3: the line-break handler appends exactly one newline, bypassing
the suppression check, increments the position by one and sets the whitespace
flag; extracting `"foo<lb/>bar"` yields exactly `"foo\nbar"`. -/
theorem claim_C3 :
    (∀ (attrs : List (String × String)) (txt : Option (List Char))
       (ch : ElemList) (tl : Option (List Char)) (ctx : Ctx),
       process_element (Elem.mk "lb" attrs txt ch tl) ctx =
         { ctx with
             text_content := ctx.text_content ++ [('\n', true)],
             global_offset := ctx.global_offset + 1,
             last_char_is_whitespace := true }) ∧
    (extract_document_data C3body).text = "foo\nbar".toList :=
  ⟨pe_lb, by decide⟩

/-- Claim C4: the choice handler appends only the preferred text (expansion if
non-empty, else abbreviation) through the normal suppressing append path, does
not walk the choice's children, and records exactly one choice annotation over
`[entry, after-append)` whose `alternative_text` is the side not chosen and
whose page is the current page; the concrete scenario yields
`"Treaty of January 1291"` with the expected single record. -/
theorem claim_C4 :
    (∀ (attrs : List (String × String)) (txt : Option (List Char))
       (ch : ElemList) (tl : Option (List Char)) (ctx : Ctx),
       process_element (Elem.mk "choice" attrs txt ch tl) ctx =
         (let e := Elem.mk "choice" attrs txt ch tl
          let abbr_text := (find_desc "abbr" e).map get_element_text
          let expan_text := (find_desc "expan" e).map get_element_text
          let chosen_text := if truthy expan_text then expan_text else abbr_text
          let ctx1 := add_opt_text chosen_text ctx
          { ctx1 with
              annotations := ctx.annotations ++
                [{ type := "choice", text := chosen_text,
                   alternative_text :=
                     if truthy expan_text then abbr_text else expan_text,
                   start_offset := ctx.global_offset,
                   end_offset := ctx1.global_offset,
                   page := ctx.current_page }] })) ∧
    (extract_document_data C4body).text = "Treaty of January 1291".toList ∧
    (extract_document_data C4body).annotations = [C4ann] := by
  refine ⟨?_, by decide, by decide⟩
  intro attrs txt ch tl ctx
  rw [pe_choice]
  dsimp only
  rw [alt_value, (add_opt_effects _ ctx).1, (add_opt_effects _ ctx).2.2]

/-- Claim C5: the substitution handler appends only the insertion side's
canonical text, records exactly one substitution annotation with
`text = insertion`, `alternative_text = deletion` and
`details = (deleted, added)`, and the canonical-text extraction skips
deletion-tagged subtrees; the concrete scenario yields `"x the y"` and never
the deleted `"teh"`. -/
theorem claim_C5 :
    (∀ (attrs : List (String × String)) (txt : Option (List Char))
       (ch : ElemList) (tl : Option (List Char)) (ctx : Ctx),
       process_element (Elem.mk "subst" attrs txt ch tl) ctx =
         (let e := Elem.mk "subst" attrs txt ch tl
          let del_text := (find_desc "del" e).map get_element_text
          let add_text := (find_desc "add" e).map get_element_text
          let ctx1 := add_opt_text add_text ctx
          { ctx1 with
              annotations := ctx.annotations ++
                [{ type := "substitution", text := add_text,
                   alternative_text := del_text,
                   start_offset := ctx.global_offset,
                   end_offset := ctx1.global_offset,
                   page := ctx.current_page,
                   details := some (del_text, add_text) }] })) ∧
    (∀ (d : Elem) (rest : ElemList), d.tag = "del" →
       elem_list_text (ElemList.cons d rest) =
         d.tail.getD [] ++ elem_list_text rest) ∧
    (extract_document_data C5body).text = "x the y".toList ∧
    (extract_document_data C5body).annotations = [C5ann] := by
  refine ⟨?_, elem_list_text_del, by decide, by decide⟩
  intro attrs txt ch tl ctx
  rw [pe_subst]
  dsimp only
  rw [(add_opt_effects _ ctx).1, (add_opt_effects _ ctx).2.2]

/-- Witness for claim C5's hypothesised conjunct: a deletion child contributes
only its tail. -/
theorem claim_C5_witness :
    elem_list_text (ElemList.cons
        (Elem.mk "del" [] (some "gone".toList) ElemList.nil
          (some "kept".toList)) ElemList.nil) =
      (Elem.mk "del" [] (some "gone".toList) ElemList.nil
        (some "kept".toList)).tail.getD [] ++ elem_list_text ElemList.nil :=
  claim_C5.2.1 (Elem.mk "del" [] (some "gone".toList) ElemList.nil
    (some "kept".toList)) ElemList.nil rfl

/-- Claim C6: the note handler first appends a single separating space iff the
trailing state is not whitespace, never appends the note's text (the buffer is
otherwise untouched), and records one note annotation at the current position
with `end_offset = start + length (note text)`; the concrete scenario yields
`"word next"` with one note record carrying `"comment"`. -/
theorem claim_C6 :
    (∀ (attrs : List (String × String)) (txt : Option (List Char))
       (ch : ElemList) (tl : Option (List Char)) (ctx : Ctx),
       process_element (Elem.mk "note" attrs txt ch tl) ctx =
         (let e := Elem.mk "note" attrs txt ch tl
          let ctx1 :=
            if ctx.last_char_is_whitespace = true then ctx
            else push_char ' ' false true ctx
          let note_text := get_element_text e
          { ctx1 with
              annotations := ctx.annotations ++
                [{ type := "note", text := some note_text,
                   alternative_text := none,
                   start_offset := ctx1.global_offset,
                   end_offset := ctx1.global_offset + note_text.length,
                   page := ctx.current_page }] })) ∧
    (extract_document_data C6body).text = "word next".toList ∧
    (extract_document_data C6body).annotations = [C6ann] := by
  refine ⟨?_, by decide, by decide⟩
  intro attrs txt ch tl ctx
  rw [pe_note]
  dsimp only
  by_cases hf : ctx.last_char_is_whitespace = true
  · rw [if_pos hf]
  · rw [if_neg hf]
    rfl

/-- Counterexample to claim C7 as stated: the extractor does NOT collapse
every internal whitespace run to a single space — a lone tab survives, so
`get_element_text` differs from the claimed normalisation `canonical_claimed`
on the node `C7tabElem`. -/
theorem claim_C7_counterexample :
    get_element_text C7tabElem = "a\tb".toList ∧
    canonical_claimed C7tabElem = "a b".toList ∧
    get_element_text C7tabElem ≠ canonical_claimed C7tabElem := by
  refine ⟨by decide, by decide, by decide⟩

/-- Claim C7 as amended: the extractor returns the concatenation of direct
text, each child's recursively extracted text (deletion-tagged children
skipped) and each child's tail, trimmed and with every run of TWO OR MORE
whitespace characters collapsed to one space (a lone whitespace character is
kept unchanged); consequently the output never has two adjacent whitespace
characters and never starts with whitespace.  (It is a pure function of the
node, so it touches no position counter by construction.) -/
theorem claim_C7_amended :
    (∀ (t : String) (attrs : List (String × String)) (txt : Option (List Char))
       (ch : ElemList) (tl : Option (List Char)),
       get_element_text (Elem.mk t attrs txt ch tl) =
         collapse_runs_aux .clear (strip_chars (txt.getD [] ++ elem_list_text ch))) ∧
    (∀ (d : Elem) (rest : ElemList), d.tag = "del" →
       elem_list_text (ElemList.cons d rest) =
         d.tail.getD [] ++ elem_list_text rest) ∧
    (∀ e : Elem, List.Chain' noAdjWs (get_element_text e)) ∧
    (∀ (e : Elem) (c : Char),
       (get_element_text e).head? = some c → isSpace c = false) ∧
    remove_extra_spaces " a \t b ".toList = "a b".toList ∧
    remove_extra_spaces "a\tb".toList = "a\tb".toList := by
  refine ⟨?_, elem_list_text_del, ?_, ?_, by decide, by decide⟩
  · intro t attrs txt ch tl
    rfl
  · intro e
    cases e with
    | mk t a tx c tl => exact remove_extra_spaces_chain _
  · intro e c hc
    cases e with
    | mk t a tx ch tl => exact remove_extra_spaces_head _ c hc

/-- Witness for claim C7's amended hypothesised conjuncts at concrete
inputs. -/
theorem claim_C7_amended_witness :
    (elem_list_text (ElemList.cons C7delElem ElemList.nil) =
      C7delElem.tail.getD [] ++ elem_list_text ElemList.nil) ∧
    isSpace 'q' = false :=
  ⟨claim_C7_amended.2.1 C7delElem ElemList.nil rfl,
   claim_C7_amended.2.2.2.1 C7qElem 'q' rfl⟩

/-- The written list of the annotation loop only ever grows by the current
annotation, so the final written list is a sublist of the input (dropping one
annotation never removes another or the document). -/
theorem reconcile_foldl_sublist (anns : List Ann) :
    ∀ st : List Char × List Ann,
      (anns.foldl reconcile_step st).2.Sublist (st.2 ++ anns) := by
  induction anns with
  | nil =>
    intro st
    simp
  | cons a rest ih =>
    intro st
    rw [List.foldl_cons]
    have hstep : (reconcile_step st a).2 = st.2 ∨
        (reconcile_step st a).2 = st.2 ++ [a] := by
      unfold reconcile_step
      by_cases h1 : annotation_types.contains a.type = true
      · rw [if_pos h1]
        by_cases h2 : check_cond st.1 a = true
        · rw [if_pos h2]
          right
          rfl
        · rw [if_neg h2]
          left
          rfl
      · rw [if_neg h1]
        left
        rfl
    have ihs := ih (reconcile_step st a)
    rcases hstep with h | h
    · rw [h] at ihs
      refine ihs.trans ?_
      exact List.Sublist.append_left (List.sublist_cons_self a rest) st.2
    · rw [h] at ihs
      refine ihs.trans ?_
      rw [List.append_assoc]
      exact List.Sublist.refl _

/-- Counterexample to claim C8 as stated, in its three divergences from the
code.  (i) The code's fallback removes newlines from the WHOLE comparison
text before slicing at the original offsets and leaves the stored text
untouched — not the claimed "strip newlines from both the slice and the
stored text": on `C8text`/`C8ann` the code keeps an annotation the claimed
rule would drop.  (ii) The comparison text is not the fixed document text:
after the kept placeName `C8pn` rebinds it to `"a"`, the choice `C8choice2`
whose slice of the DOCUMENT text matches exactly is nevertheless dropped.
(iii) A non-note annotation of an unhandled type (`C8hi`) is never written
even though its slice matches. -/
theorem claim_C8_counterexample :
    (check_cond C8text C8ann = true ∧
     check_cond_claimed C8text C8ann = false ∧
     reconcile_anns C8text [C8ann] = [C8ann]) ∧
    (check_cond_claimed C8docText C8choice2 = true ∧
     reconcile_anns C8docText [C8pn, C8choice2] = [C8pn]) ∧
    (check_cond_claimed C8docText C8hi = true ∧
     reconcile_anns C8docText [C8hi] = []) := by
  refine ⟨⟨by decide, by decide, by decide⟩, ⟨by decide, by decide⟩,
    by decide, by decide⟩

/-- Claim C8 as amended: during reconciliation the comparison text starts as
the document's text and is threaded through the annotation loop.  One step:
an annotation of an unhandled type is skipped without being written; a
handled annotation is written iff the current comparison text's slice
`[start:end)` equals the stored text or — fallback — the slice `[start:end)`
of the current comparison text with all newline characters removed beforehand
equals the stored text unchanged; otherwise it is dropped with the state
untouched, so the document and the remaining annotations are kept (the
written list is a sublist of the input); a written placeName or persName
annotation rebinds the comparison text to its own stored text for all later
annotations of the same document. -/
theorem claim_C8_amended :
    (∀ (text : List Char) (kept : List Ann) (a : Ann),
       reconcile_step (text, kept) a =
         if annotation_types.contains a.type = true ∧
            (a.text = some (py_slice text a.start_offset a.end_offset) ∨
             a.text = some (py_slice (remove_newlines text)
               a.start_offset a.end_offset))
         then
           (if a.type = "placeName" ∨ a.type = "persName" then a.text.getD []
            else text,
            kept ++ [a])
         else (text, kept)) ∧
    (∀ (doc_text : List Char) (anns : List Ann),
       (reconcile_anns doc_text anns).Sublist anns) := by
  constructor
  · intro text kept a
    unfold reconcile_step
    dsimp only
    by_cases h1 : annotation_types.contains a.type = true
    · rw [if_pos h1]
      by_cases h2 : a.text = some (py_slice text a.start_offset a.end_offset) ∨
          a.text = some (py_slice (remove_newlines text)
            a.start_offset a.end_offset)
      · have hb : check_cond text a = true := by
          unfold check_cond
          rcases h2 with h | h
          · simp [h]
          · simp [h]
        have hcond : annotation_types.contains a.type = true ∧
            (a.text = some (py_slice text a.start_offset a.end_offset) ∨
             a.text = some (py_slice (remove_newlines text)
               a.start_offset a.end_offset)) := ⟨h1, h2⟩
        rw [if_pos hb, if_pos hcond]
      · have hb : ¬check_cond text a = true := by
          unfold check_cond
          simp only [Bool.or_eq_true, decide_eq_true_eq]
          exact h2
        rw [if_neg hb, if_neg (fun hc => h2 hc.2)]
    · rw [if_neg h1, if_neg (fun hc => h1 hc.1)]
  · intro doc_text anns
    have h := reconcile_foldl_sublist anns (doc_text, [])
    simpa [reconcile_anns] using h


/-- Claim C9: a special-form node missing its expected nested sub-elements
degrades gracefully — the missing side contributes no characters (the choice
with both sides missing appends nothing and records the null sides; a
substitution with no insertion leaves the buffer untouched) and processing
returns normally; and a document whose extraction fails is skipped while the
rest of the corpus batch continues. -/
theorem claim_C9 :
    (∀ (attrs : List (String × String)) (txt : Option (List Char))
       (ch : ElemList) (tl : Option (List Char)) (ctx : Ctx),
       find_desc "abbr" (Elem.mk "choice" attrs txt ch tl) = none →
       find_desc "expan" (Elem.mk "choice" attrs txt ch tl) = none →
       process_element (Elem.mk "choice" attrs txt ch tl) ctx =
         { ctx with
             annotations := ctx.annotations ++
               [{ type := "choice", text := none, alternative_text := none,
                  start_offset := ctx.global_offset,
                  end_offset := ctx.global_offset,
                  page := ctx.current_page }] }) ∧
    (∀ (attrs : List (String × String)) (txt : Option (List Char))
       (ch : ElemList) (tl : Option (List Char)) (ctx : Ctx),
       find_desc "add" (Elem.mk "subst" attrs txt ch tl) = none →
       (process_element (Elem.mk "subst" attrs txt ch tl) ctx).text_content =
         ctx.text_content) ∧
    (∀ (extract : String → Except String DocData) (name : String)
       (fs1 fs2 : List String) (f : String) (msg : String),
       extract f = Except.error msg →
       process_corpus extract [(name, fs1 ++ f :: fs2)] =
         [(name, fs1.filterMap (fun g => (extract g).toOption) ++
                  fs2.filterMap (fun g => (extract g).toOption))]) := by
  refine ⟨?_, ?_, ?_⟩
  · intro attrs txt ch tl ctx habbr hexpan
    rw [pe_choice]
    dsimp only
    rw [habbr, hexpan]
    rfl
  · intro attrs txt ch tl ctx hadd
    rw [pe_subst]
    dsimp only
    rw [hadd]
    rfl
  · intro extract name fs1 fs2 f msg hf
    unfold process_corpus
    simp [List.filterMap_append, List.filterMap_cons, hf, Except.toOption]

/-- Witness for claim C9 at concrete inputs: an empty choice, a substitution
with only a deletion, and a three-file batch whose middle file is
unreadable. -/
theorem claim_C9_witness :
    (process_element (Elem.mk "choice" [] none ElemList.nil none)
        init_context =
      { init_context with
          annotations := init_context.annotations ++
            [{ type := "choice", text := none, alternative_text := none,
               start_offset := init_context.global_offset,
               end_offset := init_context.global_offset,
               page := init_context.current_page }] }) ∧
    (process_element (Elem.mk "subst" []
        (some "zz".toList)
        (ElemList.cons (Elem.mk "del" [] (some "teh".toList) ElemList.nil none)
          ElemList.nil) none) init_context).text_content =
      init_context.text_content ∧
    process_corpus C9extract [("FR", ["good1", "bad", "good2"])] =
      [("FR", ["good1"].filterMap (fun g => (C9extract g).toOption) ++
               ["good2"].filterMap (fun g => (C9extract g).toOption))] :=
  ⟨claim_C9.1 [] none ElemList.nil none init_context rfl rfl,
   claim_C9.2.1 [] (some "zz".toList)
     (ElemList.cons (Elem.mk "del" [] (some "teh".toList) ElemList.nil none)
       ElemList.nil) none init_context rfl,
   claim_C9.2.2 C9extract "FR" ["good1"] ["good2"] "bad"
     "unreadable document" rfl⟩

/-- Claim C10: every whitespace character in the produced buffer is either a
plain space appended by the suppressing path (which pre-normalises every
whitespace run, including tabs and newlines, to one space) or by the
note-separating space, or a newline emitted by line-break handling; no other
whitespace character ever appears. -/
theorem claim_C10 (body : Elem) :
    ∀ p ∈ (process_element body init_context).text_content,
      isSpace p.1 = true → p = (' ', false) ∨ p = ('\n', true) := by
  intro p hp hs
  exact ((process_element_step body init_context).2.2 init_context_inv).canon
    p hp hs

/-- Witness for claim C10: the tab of `C10body` was normalised to a plain
space. -/
theorem claim_C10_witness :
    (' ', false) = (' ', false) ∨ (' ', false) = ('\n', true) :=
  claim_C10 C10body (' ', false) (by decide) (by decide)
